import Mathlib

/-!
Verification of the analog-library quantization engine and its scale-factor
bookkeeping, as a shallow embedding of the C++ sources.

Floating-point host values (float and double in the C++) are modelled by
exact rationals; the device integer types (int8_t and friends) by integers
together with their numeric limits. The std::llround rounding used by the
quantizer is round-half-away-from-zero, embedded verbatim.
-/

namespace AnalogLib

/-- Device geometry fixed in analog.h: DEVICE_ROWS is 5. -/
def DEVICE_ROWS : ℕ := 5

/-- Device geometry fixed in analog.h: DEVICE_COLS is 6. -/
def DEVICE_COLS : ℕ := 6

/-- Numeric limits of a quantization target type qT, as used through
std::numeric_limits in AnalogVector.h and AnalogMatrix.h. -/
structure QuantType where
  maxLimit : ℤ
  minLimit : ℤ
deriving DecidableEq, Repr

/-- The int8_t instantiation used by example.cpp. -/
def int8 : QuantType := ⟨127, -128⟩

/-- Round half away from zero, the behaviour of std::llround on doubles. -/
def llround (x : ℚ) : ℤ :=
  if 0 ≤ x then ⌊x + 1/2⌋ else ⌈x - 1/2⌉

/-- Maximum absolute value scan of AnalogVector.h lines 138-144: start from
zero and keep the larger of the running maximum and each absolute value. -/
def maxAbsValue (l : List ℚ) : ℚ :=
  l.foldl (fun m x => if |x| > m then |x| else m) 0

/-- Scale-factor selection of AnalogVector.h line 145: the maximum absolute
value, or one when that maximum is zero. -/
def scaleFactorOf (l : List ℚ) : ℚ :=
  if maxAbsValue l = 0 then 1 else maxAbsValue l

/-- Per-element quantization of AnalogVector.h lines 151-163: scale by
maxLimit over the scale factor, clamp to the limits of qT, then llround. -/
def quantElem (q : QuantType) (sf : ℚ) (x : ℚ) : ℤ :=
  let scaled : ℚ := x / sf * (q.maxLimit : ℚ)
  let clamped : ℚ :=
    if scaled > (q.maxLimit : ℚ) then (q.maxLimit : ℚ)
    else if scaled < (q.minLimit : ℚ) then (q.minLimit : ℚ)
    else scaled
  llround clamped

/-- State of an AnalogVector handle on the quantizing path (T a floating
type, qT an integer type): host array, device array and scale factor. -/
structure AnalogVectorState where
  host : List ℚ
  device : List ℤ
  scale_factor : ℚ
deriving DecidableEq, Repr

/-- Construction of an AnalogVector from an externally owned host array:
the device array has DEVICE_COLS zero-initialized entries and the scale
factor starts at one (AnalogVector.h lines 61-77). -/
def AnalogVectorState.ofHost (host : List ℚ) : AnalogVectorState :=
  { host := host
    device := List.replicate DEVICE_COLS 0
    scale_factor := 1 }

/-- Embedding of AnalogVector.quantize_transfer_to_device (lines 114-164):
reallocate the device array zero-initialized, derive the scale factor, and
quantize each host element into the device array. Host entries are written
at indices below the host length; the remaining device entries keep their
zero initialization (the C++ requires the host length not to exceed
DEVICE_COLS for the writes to stay in bounds). -/
def quantize_transfer_to_device (q : QuantType) (v : AnalogVectorState) :
    AnalogVectorState :=
  let sf := scaleFactorOf v.host
  { host := v.host
    device := v.host.map (quantElem q sf) ++
      List.replicate (DEVICE_COLS - v.host.length) 0
    scale_factor := sf }

/-- Embedding of AnalogVector.dequantize_transfer_to_host (lines 180-184):
each host entry becomes the corresponding device entry times the supplied
scale. -/
def dequantize_transfer_to_host (sf : ℚ) (v : AnalogVectorState) :
    AnalogVectorState :=
  let newHost := (List.range v.host.length).map
    (fun i => ((v.device.getD i 0 : ℤ) : ℚ) * sf)
  { v with host := newHost }

/-- Embedding of the quantizing branch of get_scale_factor
(AnalogVector.h lines 206-212, AnalogMatrix.h lines 216-222): when T and
qT differ the accessor returns the stored scale factor divided by the
maximum of qT. -/
def get_scale_factor (q : QuantType) (v : AnalogVectorState) : ℚ :=
  v.scale_factor / (q.maxLimit : ℚ)

/-- State of an AnalogMatrix handle on the quantizing path: the host matrix
as rows of rationals, the flat device matrix, and the scale factor. -/
structure AnalogMatrixState where
  hostMat : List (List ℚ)
  deviceMat : List ℤ
  scale_factor : ℚ
deriving DecidableEq, Repr

/-- Construction of an AnalogMatrix: the device matrix has
DEVICE_ROWS times DEVICE_COLS zero-initialized entries and the scale factor
starts at one (AnalogMatrix.h lines 32-50). -/
def AnalogMatrixState.ofHost (mat : List (List ℚ)) : AnalogMatrixState :=
  { hostMat := mat
    deviceMat := List.replicate (DEVICE_ROWS * DEVICE_COLS) 0
    scale_factor := 1 }

/-- Flat device indices written by the matrix transfer loops of
AnalogMatrix.h (device_index is i times device_cols plus j, for i below
host_rows and j below host_cols). -/
def matrixWriteIndices (rows cols : ℕ) : List ℕ :=
  (List.range rows).flatMap (fun i =>
    (List.range cols).map (fun j => i * DEVICE_COLS + j))

/-- Embedding of AnalogMatrix.quantize_transfer_to_device (lines 139-194):
reallocate the device matrix zero-initialized, derive the scale factor over
every host element in row-major order, and write each quantized element at
flat index i times DEVICE_COLS plus j. Writes beyond the device capacity
are dropped by List.set; in the C++ they are out-of-bounds stores, so the
embedding is faithful only while the host shape fits the device. -/
def matrix_quantize_transfer_to_device (q : QuantType)
    (m : AnalogMatrixState) : AnalogMatrixState :=
  let sf := scaleFactorOf m.hostMat.flatten
  let dev := (List.range m.hostMat.length).foldl (fun dev i =>
    let row := m.hostMat.getD i []
    (List.range row.length).foldl (fun dev j =>
      dev.set (i * DEVICE_COLS + j) (quantElem q sf (row.getD j 0))) dev)
    (List.replicate (DEVICE_ROWS * DEVICE_COLS) 0)
  { hostMat := m.hostMat, deviceMat := dev, scale_factor := sf }

/-- Embedding of the quantizing branch of AnalogMatrix.get_scale_factor
(lines 216-222). -/
def matrix_get_scale_factor (q : QuantType) (m : AnalogMatrixState) : ℚ :=
  m.scale_factor / (q.maxLimit : ℚ)

/-- State of an AnalogVector handle on the pass-through path (T equal to
qT): host and device arrays hold the same element type. -/
structure PassVectorState where
  host : List ℚ
  device : List ℚ
  scale_factor : ℚ
deriving DecidableEq, Repr

/-- Construction of a pass-through AnalogVector from a host array. -/
def PassVectorState.ofHost (host : List ℚ) : PassVectorState :=
  { host := host
    device := List.replicate DEVICE_COLS 0
    scale_factor := 1 }

/-- Embedding of AnalogVector.direct_transfer_to_device (lines 96-106):
copy each host entry into the device array at the same index; entries past
the host length keep their previous device values. -/
def direct_transfer_to_device (v : PassVectorState) : PassVectorState :=
  { v with device := v.host ++ v.device.drop v.host.length }

/-- Embedding of AnalogVector.direct_transfer_to_host (lines 174-178):
copy each device entry back into the host array at the same index. -/
def direct_transfer_to_host (v : PassVectorState) : PassVectorState :=
  let newHost := (List.range v.host.length).map (fun i => v.device.getD i 0)
  { v with host := newHost }

/-- Embedding of the pass-through branch of get_scale_factor: when T and
qT coincide the stored scale factor is returned unchanged. -/
def pass_get_scale_factor (v : PassVectorState) : ℚ :=
  v.scale_factor

/-- State of the scale-tracking AnalogContext of AnalogContext.h: the tile
count and the three per-tile scale arrays. -/
structure AnalogContext where
  num_arrays : ℕ
  matrix_scales : List ℚ
  vector_scales : List ℚ
  output_scales : List ℚ
deriving DecidableEq, Repr

namespace AnalogContext

/-- Constructor of AnalogContext (lines 29-40): every scale entry of the
three arrays starts at one. -/
def init (n : ℕ) : AnalogContext :=
  { num_arrays := n
    matrix_scales := List.replicate n 1
    vector_scales := List.replicate n 1
    output_scales := List.replicate n 1 }

/-- Embedding of AnalogContext.set_matrix_scale (lines 56-60): store the
value when the index is below the tile count, otherwise do nothing. -/
def set_matrix_scale (ctx : AnalogContext) (value : ℚ) (index : ℕ) :
    AnalogContext :=
  if index < ctx.num_arrays then
    { ctx with matrix_scales := ctx.matrix_scales.set index value }
  else ctx

/-- Embedding of AnalogContext.set_vector_scale (lines 67-71). -/
def set_vector_scale (ctx : AnalogContext) (value : ℚ) (index : ℕ) :
    AnalogContext :=
  if index < ctx.num_arrays then
    { ctx with vector_scales := ctx.vector_scales.set index value }
  else ctx

/-- Embedding of AnalogContext.compute_scale (lines 77-81): when the index
is in range, the output scale becomes the product of the matrix and vector
scales at that index. -/
def compute_scale (ctx : AnalogContext) (index : ℕ) : AnalogContext :=
  if index < ctx.num_arrays then
    let product := ctx.matrix_scales.getD index 0 * ctx.vector_scales.getD index 0
    { ctx with output_scales := ctx.output_scales.set index product }
  else ctx

/-- Embedding of AnalogContext.get_scale (lines 88-93): the output scale
at an in-range index, and the sentinel zero otherwise. -/
def get_scale (ctx : AnalogContext) (index : ℕ) : ℚ :=
  if index < ctx.num_arrays then ctx.output_scales.getD index 0
  else 0

end AnalogContext

/-!
The second revision of the context (analogContext.h, analogType.h and
analogOperations.h) stores pointers to AnalogType objects instead of raw
scales; each object carries its own scale factor, multiplied in place by
update_scale_factor. Object identity is modelled by a handle number and a
scale store indexed by handle.
-/

/-- State of the pointer-carrying context revision: a scale per AnalogType
handle, and per tile the optional handles of the resident matrix, input
vector and output vector (null pointers are none). -/
structure PtrContextState where
  scales : ℕ → ℚ
  matrices : ℕ → Option ℕ
  input_vectors : ℕ → Option ℕ
  output_vectors : ℕ → Option ℕ

namespace PtrContextState

/-- Embedding of analogContext.h move_vector (lines 68-70): the input
vector pointer of the destination tile becomes the output vector pointer
of the source tile. -/
def move_vector (s : PtrContextState) (tile_id tile_id_new : ℕ) :
    PtrContextState :=
  { s with input_vectors := fun t =>
      if t = tile_id_new then s.output_vectors tile_id
      else s.input_vectors t }

/-- Embedding of analogOperations.h mvm_compute (lines 70-84): with the
hardware trigger external, the context work is compute_update (the output
vector pointer of the tile becomes its input vector pointer) followed by
update_scale_factor on the input vector object, multiplying its scale by
the matrix object scale. The C++ dereferences both pointers, so the
embedding is defined when both are set. -/
def mvm_compute (s : PtrContextState) (tile_id : ℕ) :
    Option PtrContextState :=
  match s.matrices tile_id, s.input_vectors tile_id with
  | some m, some v =>
    some { s with
      output_vectors := fun t =>
        if t = tile_id then s.input_vectors tile_id else s.output_vectors t
      scales := fun h =>
        if h = v then s.scales v * s.scales m else s.scales h }
  | _, _ => none

end PtrContextState

/-- Host matrix of the example program (example.cpp lines 9-16): three
rows of four entries, all holding three. -/
def exampleHostMat : List (List ℚ) := List.replicate 3 (List.replicate 4 3)

/-- Host vector of the example program (example.cpp lines 18-22): four
entries, all holding two. -/
def exampleHostVec : List ℚ := List.replicate 4 2

/-- The example matrix handle after its quantizing transfer to int8. -/
def exampleMatState : AnalogMatrixState :=
  matrix_quantize_transfer_to_device int8 (AnalogMatrixState.ofHost exampleHostMat)

/-- The example vector handle after its quantizing transfer to int8. -/
def exampleVecState : AnalogVectorState :=
  quantize_transfer_to_device int8 (AnalogVectorState.ofHost exampleHostVec)

/-- The example one-tile context after recording the two accessor scales
and computing, following the mvm_set_matrix, mvm_load_vector, mvm_compute
sequence of example.cpp lines 39-47. -/
def exampleCtxAfterCompute : AnalogContext :=
  ((((AnalogContext.init 1).set_matrix_scale
      (matrix_get_scale_factor int8 exampleMatState) 0).set_vector_scale
      (get_scale_factor int8 exampleVecState) 0).compute_scale 0)

/-- A concrete pointer-context state used to exercise the chained move:
two AnalogType handles (handle zero a matrix with scale three, handle one
a vector with scale four), the matrix resident on tile one and the vector
the completed output of tile zero. -/
def ptrWitnessState : PtrContextState :=
  { scales := fun h => if h = 0 then 3 else if h = 1 then 4 else 1
    matrices := fun t => if t = 1 then some 0 else none
    input_vectors := fun _ => none
    output_vectors := fun t => if t = 0 then some 1 else none }

/-! Helper lemmas about the maximum-absolute-value scan, llround and the
clamp. -/

theorem le_foldl_maxAbs (l : List ℚ) :
    ∀ m : ℚ, m ≤ l.foldl (fun m x => if |x| > m then |x| else m) m := by
  induction l with
  | nil => intro m; exact le_refl m
  | cons a t ih =>
    intro m
    have h1 : m ≤ if |a| > m then |a| else m := by
      split
      · exact le_of_lt (by assumption)
      · exact le_refl m
    exact le_trans h1 (ih _)

theorem abs_le_foldl_maxAbs (l : List ℚ) (x : ℚ) (hx : x ∈ l) :
    ∀ m : ℚ, |x| ≤ l.foldl (fun m x => if |x| > m then |x| else m) m := by
  induction l with
  | nil => exact absurd hx (List.not_mem_nil x)
  | cons a t ih =>
    intro m
    rcases List.mem_cons.mp hx with h | h
    · subst h
      have h1 : |x| ≤ if |x| > m then |x| else m := by
        split
        · exact le_refl _
        · exact le_of_not_lt (by assumption)
      exact le_trans h1 (le_foldl_maxAbs t _)
    · simp only [List.foldl_cons]
      exact ih h _

theorem maxAbsValue_nonneg (l : List ℚ) : 0 ≤ maxAbsValue l :=
  le_foldl_maxAbs l 0

theorem abs_le_maxAbsValue (l : List ℚ) (x : ℚ) (hx : x ∈ l) :
    |x| ≤ maxAbsValue l :=
  abs_le_foldl_maxAbs l x hx 0

theorem scaleFactorOf_pos (l : List ℚ) : 0 < scaleFactorOf l := by
  unfold scaleFactorOf
  split
  · exact one_pos
  · exact lt_of_le_of_ne (maxAbsValue_nonneg l) (Ne.symm (by assumption))

theorem abs_le_scaleFactorOf (l : List ℚ) (x : ℚ) (hx : x ∈ l) :
    |x| ≤ scaleFactorOf l := by
  unfold scaleFactorOf
  split
  · have h0 := abs_le_maxAbsValue l x hx
    have h1 : maxAbsValue l = 0 := by assumption
    rw [h1] at h0
    linarith
  · exact abs_le_maxAbsValue l x hx

theorem foldl_maxAbs_all_zero (l : List ℚ) :
    ∀ m : ℚ, (∀ x ∈ l, x = 0) → 0 ≤ m →
      l.foldl (fun m x => if |x| > m then |x| else m) m = m := by
  induction l with
  | nil => intro m _ _; rfl
  | cons a t ih =>
    intro m hall hm
    have ha : a = 0 := hall a (List.mem_cons_self a t)
    subst ha
    simp only [List.foldl_cons, abs_zero]
    rw [if_neg (by linarith)]
    exact ih m (fun x hx => hall x (List.mem_cons_of_mem _ hx)) hm

theorem maxAbsValue_eq_zero_of_all_zero (l : List ℚ)
    (h : ∀ x ∈ l, x = 0) : maxAbsValue l = 0 :=
  foldl_maxAbs_all_zero l 0 h (le_refl 0)

theorem llround_sub_le_half (x : ℚ) : |((llround x : ℤ) : ℚ) - x| ≤ 1/2 := by
  unfold llround
  split
  · have h1 := Int.floor_le (x + 1/2)
    have h2 := Int.lt_floor_add_one (x + 1/2)
    rw [abs_le]
    constructor <;> linarith
  · have h1 := Int.le_ceil (x - 1/2)
    have h2 := Int.ceil_lt_add_one (x - 1/2)
    rw [abs_le]
    constructor <;> linarith

theorem llround_intCast (n : ℤ) : llround (n : ℚ) = n := by
  unfold llround
  split
  · rw [Int.floor_eq_iff]
    constructor <;> linarith
  · rw [Int.ceil_eq_iff]
    constructor <;> linarith

theorem quantElem_of_in_range (q : QuantType) (sf x : ℚ)
    (hM : 1 ≤ q.maxLimit) (hmin : q.minLimit ≤ -q.maxLimit)
    (hsf : 0 < sf) (hx : |x| ≤ sf) :
    quantElem q sf x = llround (x / sf * (q.maxLimit : ℚ)) := by
  have hM0 : (0 : ℚ) < (q.maxLimit : ℚ) := by
    have : (1 : ℚ) ≤ (q.maxLimit : ℚ) := by exact_mod_cast hM
    linarith
  have habs : |x / sf * (q.maxLimit : ℚ)| ≤ (q.maxLimit : ℚ) := by
    rw [abs_mul, abs_div, abs_of_pos hsf, abs_of_pos hM0]
    have hdiv : |x| / sf ≤ 1 := (div_le_one hsf).mpr hx
    calc |x| / sf * (q.maxLimit : ℚ) ≤ 1 * (q.maxLimit : ℚ) := by
          exact mul_le_mul_of_nonneg_right hdiv (le_of_lt hM0)
      _ = (q.maxLimit : ℚ) := one_mul _
  have hup : ¬ (x / sf * (q.maxLimit : ℚ) > (q.maxLimit : ℚ)) := by
    rw [abs_le] at habs
    linarith [habs.2]
  have hlo : ¬ (x / sf * (q.maxLimit : ℚ) < (q.minLimit : ℚ)) := by
    rw [abs_le] at habs
    have : (q.minLimit : ℚ) ≤ -(q.maxLimit : ℚ) := by exact_mod_cast hmin
    linarith [habs.1]
  simp only [quantElem]
  rw [if_neg hup, if_neg hlo]

theorem getD_map_range {α : Type} (f : ℕ → α) (d : α) (n i : ℕ) (hi : i < n) :
    ((List.range n).map f).getD i d = f i := by
  rw [List.getD_eq_getElem _ _ (by simpa using hi)]
  simp

theorem getD_map_of_lt {α β : Type} (f : α → β) (l : List α) (d : β) (d0 : α)
    (i : ℕ) (hi : i < l.length) :
    (l.map f).getD i d = f (l.getD i d0) := by
  rw [List.getD_eq_getElem _ _ (by simpa using hi),
    List.getD_eq_getElem _ _ hi]
  simp

theorem getD_mem {α : Type} (l : List α) (d : α) (i : ℕ) (hi : i < l.length) :
    l.getD i d ∈ l := by
  rw [List.getD_eq_getElem _ _ hi]
  exact List.getElem_mem hi

theorem dequant_quant_host_elem (q : QuantType) (host : List ℚ) (s : ℚ)
    (i : ℕ) (hi : i < host.length) :
    (dequantize_transfer_to_host s
        (quantize_transfer_to_device q (AnalogVectorState.ofHost host))).host.getD i 0
      = ((quantElem q (scaleFactorOf host) (host.getD i 0) : ℤ) : ℚ) * s := by
  simp only [dequantize_transfer_to_host, quantize_transfer_to_device,
    AnalogVectorState.ofHost]
  rw [getD_map_range _ _ _ i hi]
  rw [List.getD_append _ _ _ _ (by simpa using hi)]
  rw [getD_map_of_lt _ _ _ 0 i hi]

/-- C1: for every host buffer whose values lie in the representable range
of the target type, quantize followed by dequantize at the scale the
quantizer produced (the get_scale_factor accessor value) recovers every
element to within scale_factor divided by the maximum representable value
of qT. -/
theorem quantize_dequantize_roundtrip (q : QuantType) (host : List ℚ)
    (hM : 1 ≤ q.maxLimit) (hmin : q.minLimit ≤ -q.maxLimit)
    (i : ℕ) (hi : i < host.length) :
    |(dequantize_transfer_to_host
        (get_scale_factor q
          (quantize_transfer_to_device q (AnalogVectorState.ofHost host)))
        (quantize_transfer_to_device q (AnalogVectorState.ofHost host))).host.getD i 0
      - host.getD i 0|
    ≤ (quantize_transfer_to_device q (AnalogVectorState.ofHost host)).scale_factor
        / (q.maxLimit : ℚ) := by
  have hM0 : (0 : ℚ) < (q.maxLimit : ℚ) := by
    have h1 : (1 : ℚ) ≤ (q.maxLimit : ℚ) := by exact_mod_cast hM
    linarith
  have hsf : 0 < scaleFactorOf host := scaleFactorOf_pos host
  have hscale : get_scale_factor q
      (quantize_transfer_to_device q (AnalogVectorState.ofHost host))
      = scaleFactorOf host / (q.maxLimit : ℚ) := by
    simp only [get_scale_factor, quantize_transfer_to_device,
      AnalogVectorState.ofHost]
  have hsfst : (quantize_transfer_to_device q
      (AnalogVectorState.ofHost host)).scale_factor = scaleFactorOf host := by
    simp only [quantize_transfer_to_device, AnalogVectorState.ofHost]
  rw [hscale, hsfst, dequant_quant_host_elem q host _ i hi]
  set x := host.getD i 0 with hx_def
  have hx_mem : x ∈ host := getD_mem host 0 i hi
  have hxabs : |x| ≤ scaleFactorOf host := abs_le_scaleFactorOf host x hx_mem
  rw [quantElem_of_in_range q _ x hM hmin hsf hxabs]
  set sf := scaleFactorOf host
  set y := x / sf * (q.maxLimit : ℚ) with hy_def
  have hx_eq : x = y * (sf / (q.maxLimit : ℚ)) := by
    rw [hy_def]
    field_simp
  have hstep : ((llround y : ℤ) : ℚ) * (sf / (q.maxLimit : ℚ)) - x
      = (((llround y : ℤ) : ℚ) - y) * (sf / (q.maxLimit : ℚ)) := by
    rw [hx_eq]; ring
  rw [hstep, abs_mul]
  have hround := llround_sub_le_half y
  have hpos : 0 < sf / (q.maxLimit : ℚ) := div_pos hsf hM0
  rw [abs_of_pos hpos]
  calc |((llround y : ℤ) : ℚ) - y| * (sf / (q.maxLimit : ℚ))
      ≤ (1/2) * (sf / (q.maxLimit : ℚ)) :=
        mul_le_mul_of_nonneg_right hround (le_of_lt hpos)
    _ ≤ sf / (q.maxLimit : ℚ) := by linarith

/-- Witness for the round-trip bound at a concrete buffer: quantizing the
two-element int8 buffer with values one half and two recovers index zero
within two over one hundred twenty-seven. -/
theorem quantize_dequantize_roundtrip_witness :
    |(dequantize_transfer_to_host
        (get_scale_factor int8
          (quantize_transfer_to_device int8 (AnalogVectorState.ofHost [1/2, 2])))
        (quantize_transfer_to_device int8
          (AnalogVectorState.ofHost [1/2, 2]))).host.getD 0 0
      - ([1/2, 2] : List ℚ).getD 0 0|
    ≤ (quantize_transfer_to_device int8
        (AnalogVectorState.ofHost [1/2, 2])).scale_factor / (int8.maxLimit : ℚ) :=
  quantize_dequantize_roundtrip int8 [1/2, 2] (by decide) (by decide) 0
    (by decide)

theorem getD_set_self {α : Type} (l : List α) (i : ℕ) (a d : α)
    (hi : i < l.length) : (l.set i a).getD i d = a := by
  rw [List.getD_eq_getElem _ _ (by simpa using hi)]
  simp

theorem getD_replicate_of_lt {α : Type} (n i : ℕ) (a d : α) (hi : i < n) :
    (List.replicate n a).getD i d = a := by
  rw [List.getD_eq_getElem _ _ (by simpa using hi)]
  simp

/-- C2: with matrix scale m and vector scale v recorded for an in-range
tile, compute_scale sets the output scale of that tile to exactly the product
m times v. -/
theorem compute_scale_eq_mul (ctx : AnalogContext) (index : ℕ) (m v : ℚ)
    (hidx : index < ctx.num_arrays)
    (hlen : ctx.output_scales.length = ctx.num_arrays)
    (hm : ctx.matrix_scales.getD index 0 = m)
    (hv : ctx.vector_scales.getD index 0 = v) :
    (ctx.compute_scale index).output_scales.getD index 0 = m * v := by
  simp only [AnalogContext.compute_scale, if_pos hidx]
  rw [getD_set_self _ _ _ _ (by rw [hlen]; exact hidx), hm, hv]

/-- Witness for the scale-composition theorem: on a two-tile context with
matrix scale three and vector scale five recorded at tile one, compute
yields output scale fifteen. -/
theorem compute_scale_eq_mul_witness :
    ((((AnalogContext.init 2).set_matrix_scale 3 1).set_vector_scale 5 1).compute_scale
        1).output_scales.getD 1 0 = 3 * 5 :=
  compute_scale_eq_mul
    (((AnalogContext.init 2).set_matrix_scale 3 1).set_vector_scale 5 1) 1 3 5
    (by decide) (by decide) (by decide) (by decide)

/-- C7 counterexample: on a fresh one-tile context whose matrix scale was
set to five and on which no vector was ever loaded, compute_scale succeeds
and overwrites the output-scale entry (one becomes five); no InvalidState
error exists on this path. -/
theorem compute_scale_no_vector_overwrites :
    (((AnalogContext.init 1).set_matrix_scale 5 0).compute_scale
        0).output_scales = [5]
    ∧ ((AnalogContext.init 1).set_matrix_scale 5 0).output_scales = [1] := by
  constructor <;>
    norm_num [AnalogContext.init, AnalogContext.set_matrix_scale,
      AnalogContext.compute_scale]

/-- C7 amended: compute on a tile with no vector loaded is a silent
success, not an InvalidState error: the vector scale still holds its
initial value one, so the output scale entry is overwritten with the
matrix scale times one. -/
theorem compute_scale_without_vector_records (n : ℕ) (m : ℚ) (id : ℕ)
    (hid : id < n) :
    ((((AnalogContext.init n).set_matrix_scale m id).compute_scale
        id).output_scales.getD id 0) = m * 1 := by
  simp only [AnalogContext.init, AnalogContext.set_matrix_scale,
    AnalogContext.compute_scale, if_pos hid]
  rw [getD_set_self _ _ _ _ (by simpa using hid)]
  rw [getD_set_self _ _ _ _ (by simpa using hid)]
  rw [getD_replicate_of_lt _ _ _ _ hid]

/-- Witness for the no-vector compute theorem on a one-tile context with
matrix scale seven. -/
theorem compute_scale_without_vector_records_witness :
    ((((AnalogContext.init 1).set_matrix_scale 7 0).compute_scale
        0).output_scales.getD 0 0) = 7 * 1 :=
  compute_scale_without_vector_records 1 7 0 (by decide)

/-- C10: for a tile index at or beyond the configured tile count, the two
scale setters and compute_scale return the context unchanged, and
get_scale returns the sentinel zero. -/
theorem out_of_range_tile_noop (ctx : AnalogContext) (value : ℚ)
    (index : ℕ) (hidx : ctx.num_arrays ≤ index) :
    ctx.set_matrix_scale value index = ctx
    ∧ ctx.set_vector_scale value index = ctx
    ∧ ctx.compute_scale index = ctx
    ∧ ctx.get_scale index = 0 := by
  have h : ¬ index < ctx.num_arrays := not_lt.mpr hidx
  refine ⟨?_, ?_, ?_, ?_⟩ <;>
    simp only [AnalogContext.set_matrix_scale, AnalogContext.set_vector_scale,
      AnalogContext.compute_scale, AnalogContext.get_scale, if_neg h]

/-- Witness for the out-of-range no-op theorem on a one-tile context at
index five. -/
theorem out_of_range_tile_noop_witness :
    (AnalogContext.init 1).set_matrix_scale 9 5 = AnalogContext.init 1
    ∧ (AnalogContext.init 1).set_vector_scale 9 5 = AnalogContext.init 1
    ∧ (AnalogContext.init 1).compute_scale 5 = AnalogContext.init 1
    ∧ (AnalogContext.init 1).get_scale 5 = 0 :=
  out_of_range_tile_noop (AnalogContext.init 1) 9 5 (by decide)

theorem quantElem_zero (q : QuantType) (sf : ℚ) (hM : 0 < q.maxLimit)
    (hmin : q.minLimit ≤ 0) : quantElem q sf 0 = 0 := by
  have hM0 : (0 : ℚ) < (q.maxLimit : ℚ) := by exact_mod_cast hM
  have hmin0 : (q.minLimit : ℚ) ≤ 0 := by exact_mod_cast hmin
  simp only [quantElem, zero_div, zero_mul]
  rw [if_neg (by linarith), if_neg (by linarith)]
  have h0 := llround_intCast 0
  simpa using h0

/-- C3: quantization stores the maximum absolute value of the host buffer
as the scale factor; an all-zero buffer instead yields scale factor one
and an all-zero device buffer; and the scale factor is never zero, so the
divide in the quantization loop cannot fault. -/
theorem quantize_scale_factor_spec (q : QuantType) (host : List ℚ)
    (hM : 0 < q.maxLimit) (hmin : q.minLimit ≤ 0)
    (hlen : host.length ≤ DEVICE_COLS) :
    (maxAbsValue host ≠ 0 →
      (quantize_transfer_to_device q
        (AnalogVectorState.ofHost host)).scale_factor = maxAbsValue host)
    ∧ ((∀ x ∈ host, x = 0) →
      (quantize_transfer_to_device q
        (AnalogVectorState.ofHost host)).scale_factor = 1
      ∧ (quantize_transfer_to_device q
        (AnalogVectorState.ofHost host)).device
          = List.replicate DEVICE_COLS 0)
    ∧ (quantize_transfer_to_device q
        (AnalogVectorState.ofHost host)).scale_factor ≠ 0 := by
  have hsfst : (quantize_transfer_to_device q
      (AnalogVectorState.ofHost host)).scale_factor = scaleFactorOf host := by
    simp only [quantize_transfer_to_device, AnalogVectorState.ofHost]
  refine ⟨?_, ?_, ?_⟩
  · intro hne
    rw [hsfst]
    unfold scaleFactorOf
    rw [if_neg hne]
  · intro hzero
    have hmax0 : maxAbsValue host = 0 :=
      maxAbsValue_eq_zero_of_all_zero host hzero
    have hsf1 : scaleFactorOf host = 1 := by
      unfold scaleFactorOf
      rw [if_pos hmax0]
    constructor
    · rw [hsfst, hsf1]
    · simp only [quantize_transfer_to_device, AnalogVectorState.ofHost, hsf1]
      have hmap : host.map (quantElem q 1) = List.replicate host.length 0 := by
        rw [List.eq_replicate_iff]
        refine ⟨by simp, ?_⟩
        intro b hb
        rcases List.mem_map.mp hb with ⟨x, hx, hquant⟩
        rw [hzero x hx] at hquant
        rw [← hquant, quantElem_zero q 1 hM hmin]
      rw [hmap, ← List.replicate_add]
      congr 1
      omega
  · rw [hsfst]
    exact ne_of_gt (scaleFactorOf_pos host)

/-- Witness for the scale-factor theorem at the all-zero two-element int8
buffer. -/
theorem quantize_scale_factor_spec_witness :
    (maxAbsValue [0, 0] ≠ 0 →
      (quantize_transfer_to_device int8
        (AnalogVectorState.ofHost [0, 0])).scale_factor = maxAbsValue [0, 0])
    ∧ ((∀ x ∈ ([0, 0] : List ℚ), x = 0) →
      (quantize_transfer_to_device int8
        (AnalogVectorState.ofHost [0, 0])).scale_factor = 1
      ∧ (quantize_transfer_to_device int8
        (AnalogVectorState.ofHost [0, 0])).device
          = List.replicate DEVICE_COLS 0)
    ∧ (quantize_transfer_to_device int8
        (AnalogVectorState.ofHost [0, 0])).scale_factor ≠ 0 :=
  quantize_scale_factor_spec int8 [0, 0] (by decide) (by decide) (by decide)

/-- C4 counterexample: quantizing the one-element buffer holding negative
two to int8 sends the maximal-magnitude negative element to negative one
hundred twenty-seven, the negation of the type maximum, which differs from
the int8 minimum of negative one hundred twenty-eight that the claim
names. -/
theorem quantize_neg_max_not_min_limit :
    (quantize_transfer_to_device int8
      (AnalogVectorState.ofHost [-2])).device.getD 0 0 = -127
    ∧ int8.minLimit = -128
    ∧ (-127 : ℤ) ≠ int8.minLimit := by
  with_unfolding_all decide

/-- C4 amended: an element whose absolute value equals the buffer maximum
quantizes to exactly the type maximum when positive and to the negation of
the type maximum when negative (one above the two-complement minimum), and
in both cases the result stays within the limits of qT. -/
theorem quantize_max_abs_elem (q : QuantType) (host : List ℚ) (i : ℕ)
    (hM : 1 ≤ q.maxLimit) (hmin : q.minLimit ≤ -q.maxLimit)
    (hi : i < host.length)
    (hmax : |host.getD i 0| = maxAbsValue host)
    (hne : host.getD i 0 ≠ 0) :
    (0 < host.getD i 0 →
      (quantize_transfer_to_device q
        (AnalogVectorState.ofHost host)).device.getD i 0 = q.maxLimit)
    ∧ (host.getD i 0 < 0 →
      (quantize_transfer_to_device q
        (AnalogVectorState.ofHost host)).device.getD i 0 = -q.maxLimit)
    ∧ q.minLimit ≤ (quantize_transfer_to_device q
        (AnalogVectorState.ofHost host)).device.getD i 0
    ∧ (quantize_transfer_to_device q
        (AnalogVectorState.ofHost host)).device.getD i 0 ≤ q.maxLimit := by
  set x := host.getD i 0 with hx_def
  have hdev : (quantize_transfer_to_device q
      (AnalogVectorState.ofHost host)).device.getD i 0
      = quantElem q (scaleFactorOf host) x := by
    simp only [quantize_transfer_to_device, AnalogVectorState.ofHost]
    rw [List.getD_append _ _ _ _ (by simpa using hi),
      getD_map_of_lt _ _ _ 0 i hi]
  have hsf_eq : scaleFactorOf host = |x| := by
    unfold scaleFactorOf
    rw [← hmax, if_neg (by simpa using hne)]
  have hsf : 0 < scaleFactorOf host := scaleFactorOf_pos host
  have hq := quantElem_of_in_range q (scaleFactorOf host) x hM hmin hsf
    (le_of_eq hsf_eq.symm)
  rw [hsf_eq] at hq
  have hval : quantElem q (scaleFactorOf host) x
      = if 0 < x then q.maxLimit else -q.maxLimit := by
    rw [hsf_eq, hq]
    rcases lt_trichotomy x 0 with hx | hx | hx
    · rw [if_neg (by linarith), abs_of_neg hx]
      have harg : x / -x * (q.maxLimit : ℚ) = ((-q.maxLimit : ℤ) : ℚ) := by
        rw [div_neg, div_self hne]
        push_cast
        ring
      rw [harg, llround_intCast]
    · exact absurd hx hne
    · rw [if_pos hx, abs_of_pos hx]
      have harg : x / x * (q.maxLimit : ℚ) = ((q.maxLimit : ℤ) : ℚ) := by
        rw [div_self hne, one_mul]
      rw [harg, llround_intCast]
  rw [hdev, hval]
  refine ⟨?_, ?_, ?_, ?_⟩
  · intro hx; rw [if_pos hx]
  · intro hx; rw [if_neg (by linarith)]
  · split <;> omega
  · split <;> omega

/-- Witness for the amended clamp theorem on the int8 buffer with entries
negative two and one, at the index of the negative maximal element. -/
theorem quantize_max_abs_elem_witness :
    (0 < ([-2, 1] : List ℚ).getD 0 0 →
      (quantize_transfer_to_device int8
        (AnalogVectorState.ofHost [-2, 1])).device.getD 0 0 = int8.maxLimit)
    ∧ (([-2, 1] : List ℚ).getD 0 0 < 0 →
      (quantize_transfer_to_device int8
        (AnalogVectorState.ofHost [-2, 1])).device.getD 0 0 = -int8.maxLimit)
    ∧ int8.minLimit ≤ (quantize_transfer_to_device int8
        (AnalogVectorState.ofHost [-2, 1])).device.getD 0 0
    ∧ (quantize_transfer_to_device int8
        (AnalogVectorState.ofHost [-2, 1])).device.getD 0 0 ≤ int8.maxLimit :=
  quantize_max_abs_elem int8 [-2, 1] 0 (by decide) (by decide) (by decide)
    (by with_unfolding_all decide) (by with_unfolding_all decide)

set_option maxRecDepth 10000 in
/-- C5 counterexample: the matrix scale-factor accessor on the quantized
example matrix returns three divided by one hundred twenty-seven, not the
three the claim states, because the quantizing branch of get_scale_factor
divides the stored magnitude by the int8 maximum. -/
theorem example_matrix_accessor_not_three :
    matrix_get_scale_factor int8 exampleMatState = 3 / 127
    ∧ (3 / 127 : ℚ) ≠ 3 :=
  ⟨by with_unfolding_all rfl, by with_unfolding_all decide⟩

set_option maxRecDepth 10000 in
/-- C5 amended: in the example scenario the matrix accessor returns three
over one hundred twenty-seven and the vector accessor two over one hundred
twenty-seven; every quantized matrix and vector entry in the host region
equals one hundred twenty-seven; and the composed output scale after
compute equals six over sixteen thousand one hundred twenty-nine, the
product of the two accessor values. -/
theorem example_scenario_eval :
    matrix_get_scale_factor int8 exampleMatState = 3 / 127
    ∧ get_scale_factor int8 exampleVecState = 2 / 127
    ∧ (matrixWriteIndices 3 4).map
        (fun idx => exampleMatState.deviceMat.getD idx 0)
        = List.replicate 12 127
    ∧ exampleVecState.device.take 4 = List.replicate 4 127
    ∧ exampleCtxAfterCompute.get_scale 0 = 6 / 16129
    ∧ (6 / 16129 : ℚ) = 3 / 127 * (2 / 127) :=
  ⟨by with_unfolding_all rfl, by with_unfolding_all rfl,
    by with_unfolding_all rfl, by with_unfolding_all rfl,
    by with_unfolding_all rfl, by with_unfolding_all rfl⟩

/-- C6: on the pass-through path (host and device element types equal), a
transfer to the device followed by a transfer to the host reproduces the
original host buffer exactly, and the scale factor stays at one after
each step. -/
theorem passthrough_roundtrip (host : List ℚ)
    (_hlen : host.length ≤ DEVICE_COLS) :
    (direct_transfer_to_host
        (direct_transfer_to_device (PassVectorState.ofHost host))).host = host
    ∧ (direct_transfer_to_device (PassVectorState.ofHost host)).scale_factor = 1
    ∧ (direct_transfer_to_host
        (direct_transfer_to_device (PassVectorState.ofHost host))).scale_factor
        = 1 := by
  refine ⟨?_, rfl, rfl⟩
  simp only [direct_transfer_to_host, direct_transfer_to_device,
    PassVectorState.ofHost]
  apply List.ext_getElem
  · simp
  · intro i h1 h2
    simp only [List.getElem_map, List.getElem_range]
    rw [List.getD_append _ _ _ _ h2, List.getD_eq_getElem _ _ h2]

/-- Witness for the pass-through identity on the three-element buffer one,
two, three. -/
theorem passthrough_roundtrip_witness :
    (direct_transfer_to_host
        (direct_transfer_to_device (PassVectorState.ofHost [1, 2, 3]))).host
        = [1, 2, 3]
    ∧ (direct_transfer_to_device
        (PassVectorState.ofHost [1, 2, 3])).scale_factor = 1
    ∧ (direct_transfer_to_host
        (direct_transfer_to_device
          (PassVectorState.ofHost [1, 2, 3]))).scale_factor = 1 :=
  passthrough_roundtrip [1, 2, 3] (by decide)

/-- C8: evaluation at the failing input. A six-row host matrix exceeds the
five-row device geometry, yet the transfer loop of AnalogMatrix.h computes
flat write index thirty-five, beyond the device capacity of thirty
entries, and the quantizing transfer returns an ordinary state with no
error of any kind: there is no CapacityExceeded check anywhere on the
path. -/
theorem matrix_oversized_write_out_of_bounds :
    35 ∈ matrixWriteIndices 6 6
    ∧ DEVICE_ROWS * DEVICE_COLS = 30
    ∧ (matrix_quantize_transfer_to_device int8
        (AnalogMatrixState.ofHost
          (List.replicate 6 (List.replicate 6 1)))).deviceMat.length = 30 :=
  ⟨by decide, by decide, by with_unfolding_all rfl⟩

/-- C9: moving the output vector of tile A (an AnalogType object with
scale sA) into tile B makes it the input vector of B with its scale intact, and
a subsequent compute on tile B with matrix scale mB leaves the object
serving as the output vector of B with scale mB times sA. -/
theorem move_vector_scale_composition (s : PtrContextState) (A B m v : ℕ)
    (sA mB : ℚ)
    (hout : s.output_vectors A = some v)
    (hmat : s.matrices B = some m)
    (hsA : s.scales v = sA) (hmB : s.scales m = mB) :
    ((s.move_vector A B).input_vectors B = some v
    ∧ (s.move_vector A B).scales v = sA)
    ∧ ∃ s2, (s.move_vector A B).mvm_compute B = some s2
        ∧ s2.output_vectors B = some v
        ∧ s2.scales v = mB * sA := by
  have hin : (s.move_vector A B).input_vectors B = some v := by
    simp only [PtrContextState.move_vector, if_pos rfl]
    exact hout
  have hmat2 : (s.move_vector A B).matrices B = some m := hmat
  refine ⟨⟨hin, hsA⟩, ?_⟩
  simp only [PtrContextState.mvm_compute, hmat2, hin]
  refine ⟨_, rfl, ?_, ?_⟩
  · simp [hin]
  · simp [PtrContextState.move_vector, hsA, hmB, mul_comm]

/-- Witness for the chained-move theorem on the concrete pointer-context
state: the output of tile zero (scale four) moves into tile one, whose matrix
has scale three, and the compute on tile one yields output scale twelve. -/
theorem move_vector_scale_composition_witness :
    ((ptrWitnessState.move_vector 0 1).input_vectors 1 = some 1
    ∧ (ptrWitnessState.move_vector 0 1).scales 1 = 4)
    ∧ ∃ s2, (ptrWitnessState.move_vector 0 1).mvm_compute 1 = some s2
        ∧ s2.output_vectors 1 = some 1
        ∧ s2.scales 1 = 3 * 4 :=
  move_vector_scale_composition ptrWitnessState 0 1 0 1 4 3 rfl rfl rfl rfl

end AnalogLib
